import Mathlib

/-!
Verification of the mulled container-image name resolution and caching logic
of `lib/galaxy/tool_util/deps/container_resolvers/mulled.py` (and the v2 name
encoder used by `lib/galaxy/tool_util/deps/mulled/mulled_search.py`).

The Python code is shallowly embedded: strings are Lean `String`s (with the
character-level splitting helpers below standing in for Python's `split`,
`rsplit` and `in` operators), Python `None` becomes `Option.none`, and a
Python exception escaping a function is modelled by `Except.error ()`.
Functions keep their source names.
-/

namespace Mulled

/-! ## Character-list string helpers

Python string primitives (`split(sep, 1)`, `rsplit(sep, 1)`, `in`, `count`,
`startswith`, slicing) are modelled on `List Char` so that they can be
reasoned about by induction. -/

/-- Split at the first occurrence of the character `sep`; `none` when `sep`
does not occur.  Models Python `s.split(sep, 1)` for a one-character `sep`
(restricted to the case where an occurrence exists). -/
def splitFirst (sep : Char) : List Char → Option (List Char × List Char)
  | [] => none
  | c :: cs =>
    if c = sep then some ([], cs)
    else
      match splitFirst sep cs with
      | some p => some (c :: p.1, p.2)
      | none => none

/-- Split at the last occurrence of the character `sep`; `none` when `sep`
does not occur.  Models Python `s.rsplit(sep, 1)`. -/
def splitLast (sep : Char) (s : List Char) : Option (List Char × List Char) :=
  match splitFirst sep s.reverse with
  | some p => some (p.2.reverse, p.1.reverse)
  | none => none

/-- Split at the first occurrence of the substring `sep`; `none` when `sep`
does not occur.  Models Python `s.split(sep, 1)` (restricted to the case
where an occurrence exists). -/
def splitSub (sep : List Char) : List Char → Option (List Char × List Char)
  | [] => none
  | c :: cs =>
    if sep.isPrefixOf (c :: cs) then some ([], (c :: cs).drop sep.length)
    else
      match splitSub sep cs with
      | some p => some (c :: p.1, p.2)
      | none => none

/-- Split at the last occurrence of the substring `sep`; `none` when `sep`
does not occur.  Models Python `s.rsplit(sep, 1)`. -/
def rsplitSub (sep : List Char) (s : List Char) : Option (List Char × List Char) :=
  match splitSub sep.reverse s.reverse with
  | some p => some (p.2.reverse, p.1.reverse)
  | none => none

/-- Substring containment test; models Python `sep in s`. -/
def listContainsSub (sep : List Char) : List Char → Bool
  | [] => sep.isEmpty
  | c :: cs => sep.isPrefixOf (c :: cs) || listContainsSub sep cs

/-- The two-character separator `--` used in mulled tags. -/
def dd : List Char := ['-', '-']

/-- Python `p.startswith(q)`. -/
def strStartsWith (s q : String) : Bool := q.data.isPrefixOf s.data

/-- Python truthiness of an optional string: `None` and the empty string are
falsy, every other string is truthy. -/
def pyTruthy : Option String → Bool
  | none => false
  | some s => !s.data.isEmpty

/-- Python `s.isdigit()` (restricted to ASCII digits, the only characters
appearing in docker build numbers): true iff `s` is nonempty and all of its
characters are digits. -/
def isDigitStr (s : String) : Bool := !s.data.isEmpty && s.data.all Char.isDigit

/-- Python `identifier.rsplit(":", 1)` combined with the preceding
`":" in identifier` test: returns the part before the last colon and the part
after it, or `(identifier, none)` when there is no colon. -/
def rsplitColon (s : String) : String × Option String :=
  match splitLast ':' s.data with
  | some p => (⟨p.1⟩, some ⟨p.2⟩)
  | none => (s, none)

/-- Split a string at its first colon (`name.split(":", 2)` in the source,
which is only reached on strings with at most one colon — v2 image names —
so splitting at the first colon is equivalent). -/
def splitColonOnce (s : String) : String × Option String :=
  match splitFirst ':' s.data with
  | some p => (⟨p.1⟩, some ⟨p.2⟩)
  | none => (s, none)

/-- A deterministic string hash producing a decimal-digit string.
Modelled from the spec: the spec (§4.1) says only "hash the concatenation";
the concrete hash function (`sha1` in `galaxy.tool_util.deps.mulled.util`,
which is not part of the reviewed sources) is immaterial to the claims, so an
executable stand-in is used.  Its output never contains `:`, `/` or `-`,
which the naming convention relies on. -/
def hashStr (s : String) : String :=
  toString (s.data.foldl (fun a c => (a * 31 + c.toNat) % 1000000007) 7)

/-- Comma-join, as used when concatenating sorted package names. -/
def joinComma (l : List String) : String := String.intercalate "," l

/-! ## Data model

`CachedMulledImageSingleTarget`, `CachedV1MulledImageMultiTarget` and
`CachedV2MulledImageMultiTarget` (mulled.py lines 41-47) become one inductive
with three constructors; the `multi_target` class attribute becomes the
discriminator function below (`False` is `none`, `"v1"`/`"v2"` are
`some "v1"`/`some "v2"`). -/

/-- A resolution target: package name plus optional version and build
(spec §3: Target). -/
structure Target where
  package_name : String
  version : Option String
  build : Option String
  deriving DecidableEq, Repr

/-- The three cached-image record variants of mulled.py lines 41-43. -/
inductive CachedImage where
  | single (package_name : String) (version : Option String)
      (build : Option String) (image_identifier : String)
  | v1 (hash : String) (build : Option String) (image_identifier : String)
  | v2 (image_name : String) (version_hash : Option String)
      (build : Option String) (image_identifier : String)
  deriving DecidableEq, Repr

/-- The `multi_target` discriminator (mulled.py lines 45-47): `False` for a
single-target image, `"v1"`/`"v2"` for the multi-target variants. -/
def CachedImage.multi_target : CachedImage → Option String
  | .single _ _ _ _ => none
  | .v1 _ _ _ => some "v1"
  | .v2 _ _ _ _ => some "v2"

/-- The `image_identifier` field common to all three variants. -/
def CachedImage.image_identifier : CachedImage → String
  | .single _ _ _ i => i
  | .v1 _ _ i => i
  | .v2 _ _ _ i => i

/-- The `package_name` field, present only on the single-target variant. -/
def CachedImage.package_nameOf : CachedImage → Option String
  | .single pn _ _ _ => some pn
  | _ => none

/-- The `version` field, present only on the single-target variant. -/
def CachedImage.versionOf : CachedImage → Option String
  | .single _ v _ _ => v
  | _ => none

/-- The `_package_hash` computation of mulled.py lines 50-58: the image name
itself, or its last `/`-separated component when it contains a `/`. -/
def image_name_package_hash (image_name : String) : String :=
  if image_name.data.contains '/' then
    match splitLast '/' image_name.data with
    | some p => ⟨p.2⟩
    | none => image_name
  else image_name

/-- The `package_hash` property (mulled.py line 61), present only on the v2
multi-target variant. -/
def CachedImage.package_hash : CachedImage → Option String
  | .v2 n _ _ _ => some (image_name_package_hash n)
  | _ => none

/-- The `version_hash` field, present only on the v2 multi-target variant. -/
def CachedImage.version_hashOf : CachedImage → Option String
  | .v2 _ vh _ _ => vh
  | _ => none

/-- The `hash` field, present only on the v1 multi-target variant. -/
def CachedImage.hashOf : CachedImage → Option String
  | .v1 h _ _ => some h
  | _ => none

/-- A resolved container description (`ContainerDescription` from
`galaxy.tool_util.deps.requirements`), reduced to the fields this module
sets. -/
structure ContainerDescription where
  identifier : String
  type : String
  shell : String
  deriving DecidableEq, Repr

/-! ## Name encoders

`v1_image_name`, `v2_image_name`, `split_tag` and `build_target` live in
`galaxy.tool_util.deps.mulled.util`, which is not among the reviewed source
files; they are modelled from the spec (§4.1, §4.2, §2). -/

/-- Targets sorted by package name ("sort target package names", spec §4.1). -/
def sortTargets (targets : List Target) : List Target :=
  List.insertionSort (fun a b => a.package_name ≤ b.package_name) targets

/-- Modelled from the spec: the package-hash half of `v2_image_name` from
`galaxy.tool_util.deps.mulled.util` (not in the reviewed sources).  Spec
§4.1: "sort target package names, hash the concatenation (package hash)";
§4.2: v2 multi-target names carry the `mulled-v2-` prefix. -/
def v2_package_hash (targets : List Target) : String :=
  "mulled-v2-" ++ hashStr (joinComma ((sortTargets targets).map (fun t => t.package_name)))

/-- Modelled from the spec: `v2_image_name` from
`galaxy.tool_util.deps.mulled.util` (not in the reviewed sources).  Spec
§4.1: "For multiple targets (v2): sort target package names, hash the
concatenation (package hash); if all versions known, additionally hash the
concatenated versions (version hash); name is
`<package_hash>[:<version_hash>]`". -/
def v2_image_name (targets : List Target) : String :=
  let sorted := sortTargets targets
  if sorted.all (fun t => pyTruthy t.version) then
    v2_package_hash targets ++ ":" ++
      hashStr (joinComma (sorted.map (fun t => t.version.getD "")))
  else v2_package_hash targets

/-- Modelled from the spec: `v1_image_name` from
`galaxy.tool_util.deps.mulled.util` (not in the reviewed sources).  Spec
§4.1: "For v1: legacy single combined hash of all package+version strings";
§4.2: v1 multi-target names carry the `mulled-v1-` prefix. -/
def v1_image_name (targets : List Target) : String :=
  "mulled-v1-" ++ hashStr (joinComma (targets.map (fun t =>
    t.package_name ++ (match t.version with | some v => "=" ++ v | none => ""))))

/-- Modelled from the spec: `split_tag` from
`galaxy.tool_util.deps.mulled.util` (not in the reviewed sources).  Spec
§4.2/§4.1: a single-package tag `<version>--<build>` is "split on `--` into
version/build"; modelled as the split at the last `--` (Python
`tag.rsplit("--", 1)`).  The callers only invoke it after checking
`"--" in tag`, so the no-occurrence fallback is unreachable there. -/
def split_tag (tag : String) : String × String :=
  match rsplitSub dd tag.data with
  | some p => (⟨p.1⟩, ⟨p.2⟩)
  | none => (tag, "")

/-- The single-target name construction of `targets_to_mulled_name`
(mulled.py lines 280-282): `"%s:%s" % (package_name, version)`, extended
with `"--%s" % build` when the build is truthy.  This is the
`<package>:<version>[--<build>]` encoding of spec §4.1. -/
def single_target_name (package_name version : String) (build : Option String) : String :=
  let name := package_name ++ ":" ++ version
  if pyTruthy build then name ++ "--" ++ build.getD "" else name

/-! ## Cache scanner (`identifier_to_cached_target`, mulled.py lines 91-136)

The function is split exactly along the source's seams: lines 92-99
(`normalize_identifier`: tag extraction and `latest`/empty normalization)
and lines 101-136 (`classify_identifier`).  A Python exception escaping the
function — the `AttributeError` raised by `version.isdigit()` when `version`
is `None` on line 123 — is modelled as `Except.error ()`. -/

/-- The registry prefix (mulled.py lines 102-104): `""` without a namespace,
`"quay.io/<namespace>/"` with one. -/
def ns_pfx : Option String → String
  | none => ""
  | some n => "quay.io/" ++ n ++ "/"

/-- Lines 92-99: split the identifier at its last colon into image name and
tag, then normalize a missing, empty or `"latest"` tag to no version. -/
def normalize_identifier (identifier : String) : String × Option String :=
  let p := rsplitColon identifier
  match p.2 with
  | none => (p.1, none)
  | some v => if v.data.isEmpty ∨ v = "latest" then (p.1, none) else (p.1, some v)

/-- Lines 130-132: an optional single-package tag, split on `--` into
version and build when `--` occurs in a truthy tag. -/
def tag_split : Option String → Option String × Option String
  | none => (none, none)
  | some v =>
    if pyTruthy (some v) && listContainsSub dd v.data then
      match rsplitSub dd v.data with
      | some p => (some ⟨p.1⟩, some ⟨p.2⟩)
      | none => (some v, none)
    else (some v, none)

/-- Lines 133-134: strip a truthy registry prefix from a single-package
image name. -/
def strip_ns_pfx (pfx n : String) : String :=
  if !pfx.data.isEmpty && strStartsWith n pfx then ⟨n.data.drop pfx.data.length⟩ else n

/-- Lines 101-136: classify a normalized (image name, version) pair into one
of the three cached-image variants, or no record on a hash-function
mismatch.  In the `mulled-v2-` branch, a `None` version reaches
`version.isdigit()` (line 123) and raises `AttributeError`, modelled by
`Except.error ()`. -/
def classify_identifier (image_name : String) (version : Option String)
    (identifier hash_func : String) (ns : Option String) :
    Except Unit (Option CachedImage) :=
  let pfx := ns_pfx ns
  if strStartsWith image_name (pfx ++ "mulled-v1-") then
    if hash_func = "v2" then Except.ok none
    else
      let build := if pyTruthy version &&
          (match version with | some v => isDigitStr v | none => false)
        then version else none
      Except.ok (some (CachedImage.v1 image_name build identifier))
  else if strStartsWith image_name (pfx ++ "mulled-v2-") then
    if hash_func = "v1" then Except.ok none
    else
      match version with
      | some v =>
        if pyTruthy (some v) && v.data.contains '-' then
          match splitLast '-' v.data with
          | some p =>
            Except.ok (some (CachedImage.v2 image_name (some ⟨p.1⟩) (some ⟨p.2⟩) identifier))
          | none =>
            -- unreachable: guarded by the containment test
            Except.ok (some (CachedImage.v2 image_name none none identifier))
        else if isDigitStr v then
          Except.ok (some (CachedImage.v2 image_name none (some v) identifier))
        else
          -- an unparsable truthy tag is only logged at debug level
          Except.ok (some (CachedImage.v2 image_name none none identifier))
      | none =>
        -- line 123: `version.isdigit()` with `version is None` raises
        Except.error ()
  else
    let vb := tag_split version
    Except.ok (some (CachedImage.single (strip_ns_pfx pfx image_name) vb.1 vb.2 identifier))

/-- `identifier_to_cached_target` (mulled.py lines 91-136). -/
def identifier_to_cached_target (identifier hash_func : String)
    (ns : Option String) : Except Unit (Option CachedImage) :=
  let p := normalize_identifier identifier
  classify_identifier p.1 p.2 identifier hash_func ns

/-! ## Matcher (`find_best_matching_cached_image`, mulled.py lines 150-196)

Each of the three `for … break` scans becomes a structural recursion
returning the first match. -/

/-- Lines 156-164: the single-target scan.  Multi-target images are skipped,
then the package names must agree, and the target's version, when truthy,
must equal the cached image's version. -/
def scan_single (target : Target) : List CachedImage → Option CachedImage
  | [] => none
  | ci :: rest =>
    match ci with
    | CachedImage.single pn v _ _ =>
      if pn ≠ target.package_name then scan_single target rest
      else if pyTruthy target.version = false ∨ target.version = v then some ci
      else scan_single target rest
    | _ => scan_single target rest

/-- Lines 172-185: the v2 scan.  Non-v2 images are skipped; with no computed
version hash the package hashes must agree, otherwise both hashes must. -/
def scan_v2 (package_hash : String) (version_hash : Option String) :
    List CachedImage → Option CachedImage
  | [] => none
  | ci :: rest =>
    match ci with
    | CachedImage.v2 n vh _ _ =>
      match version_hash with
      | none =>
        if package_hash = image_name_package_hash n then some ci
        else scan_v2 package_hash version_hash rest
      | some q =>
        if package_hash = image_name_package_hash n ∧ vh = some q then some ci
        else scan_v2 package_hash version_hash rest
    | _ => scan_v2 package_hash version_hash rest

/-- Lines 189-195: the v1 scan.  Non-v1 images are skipped; the computed v1
name must equal the cached image's hash. -/
def scan_v1 (name : String) : List CachedImage → Option CachedImage
  | [] => none
  | ci :: rest =>
    match ci with
    | CachedImage.v1 h _ _ =>
      if name = h then some ci else scan_v1 name rest
    | _ => scan_v1 name rest

/-- `find_best_matching_cached_image` (mulled.py lines 150-196).  No targets
or (with several targets) an unknown hash function yield no match. -/
def find_best_matching_cached_image (targets : List Target)
    (cached_images : List CachedImage) (hash_func : String) : Option CachedImage :=
  match targets with
  | [] => none
  | [target] => scan_single target cached_images
  | _ :: _ :: _ =>
    if hash_func = "v2" then
      let pv := splitColonOnce (v2_image_name targets)
      scan_v2 pv.1 pv.2 cached_images
    else if hash_func = "v1" then
      scan_v1 (v1_image_name targets) cached_images
    else none

/-! ## Docker image listing (mulled.py lines 64-88 and 145-147, 199-214)

The external `docker images` invocation is modelled by a parameter of type
`Except Unit (List String)`: `Except.error ()` is a nonzero-exit
`CalledProcessError`, `Except.ok lines` the raw output lines (header line
included).  The caller-supplied `resolution_cache` memoization is omitted
(the uncached path is modelled). -/

/-- Python `line.split()`: split on runs of whitespace, dropping empty
fields. -/
def pyWords (s : List Char) : List String :=
  go s []
where
  go : List Char → List Char → List String
    | [], acc => if acc.isEmpty then [] else [⟨acc.reverse⟩]
    | c :: cs, acc =>
      if c.isWhitespace then
        if acc.isEmpty then go cs [] else (⟨acc.reverse⟩ : String) :: go cs []
      else go cs (c :: acc)

/-- `get_filter` (mulled.py lines 145-147) applied to one parsed output
entry: the first field must start with `quay.io/` (with the namespace
appended when given) and contain exactly two `/`.  An empty entry makes
`name[0]` raise `IndexError`. -/
def entry_passes_filter (ns : Option String) (entry : List String) :
    Except Unit Bool :=
  let pfx := match ns with
    | none => "quay.io/"
    | some n => "quay.io/" ++ n
  match entry with
  | [] => Except.error ()
  | name0 :: _ =>
    Except.ok (strStartsWith name0 pfx && name0.data.count '/' == 2)

/-- `output_line_to_image` (mulled.py lines 81-85) on one parsed output
entry: rebuild the `name:version` identifier and parse it.  An entry with
fewer than two fields makes `line[1]` raise `IndexError`. -/
def output_line_to_image (hash_func : String) (ns : Option String)
    (entry : List String) : Except Unit (Option CachedImage) :=
  match entry with
  | name :: ver :: _ => identifier_to_cached_target (name ++ ":" ++ ver) hash_func ns
  | _ => Except.error ()

/-- `list_docker_cached_mulled_images` (mulled.py lines 64-88).  A failed
external command (`CalledProcessError`) is caught, logged and turned into an
empty listing; parse errors inside the per-line processing propagate. -/
def list_docker_cached_mulled_images (docker_output : Except Unit (List String))
    (ns : Option String) (hash_func : String) : Except Unit (List CachedImage) :=
  match docker_output with
  | Except.error _ => Except.ok []
  | Except.ok output_lines => do
    let images_and_versions := (output_lines.drop 1).map (fun l => (pyWords l.data).take 2)
    let filtered ← images_and_versions.filterM (entry_passes_filter ns)
    let raw_images ← filtered.mapM (output_line_to_image hash_func ns)
    pure (raw_images.filterMap id)

/-- `docker_cached_container_description` (mulled.py lines 199-214). -/
def docker_cached_container_description (docker_output : Except Unit (List String))
    (targets : List Target) (ns : Option String) (hash_func shell : String) :
    Except Unit (Option ContainerDescription) :=
  if targets.length = 0 then Except.ok none
  else
    match list_docker_cached_mulled_images docker_output ns hash_func with
    | Except.error e => Except.error e
    | Except.ok cached_images =>
      Except.ok ((find_best_matching_cached_image targets cached_images hash_func).map
        (fun i => { identifier := i.image_identifier, type := "docker", shell := shell }))

/-! ## Lemmas about the splitting helpers -/

theorem splitFirst_of_not_mem {sep : Char} : ∀ {x : List Char}, sep ∉ x →
    splitFirst sep x = none
  | [], _ => rfl
  | c :: cs, h => by
    have hc : ¬c = sep := fun e => h (e ▸ List.mem_cons_self c cs)
    have ht : sep ∉ cs := fun m => h (List.mem_cons_of_mem c m)
    simp [splitFirst, hc, splitFirst_of_not_mem ht]

theorem splitFirst_append {sep : Char} : ∀ {x : List Char} (y : List Char), sep ∉ x →
    splitFirst sep (x ++ sep :: y) = some (x, y)
  | [], y, _ => by simp [splitFirst]
  | c :: cs, y, h => by
    have hc : ¬c = sep := fun e => h (e ▸ List.mem_cons_self c cs)
    have ht : sep ∉ cs := fun m => h (List.mem_cons_of_mem c m)
    simp [splitFirst, hc, splitFirst_append y ht]

theorem splitLast_of_not_mem {sep : Char} {x : List Char} (h : sep ∉ x) :
    splitLast sep x = none := by
  have : sep ∉ x.reverse := fun m => h (List.mem_reverse.mp m)
  simp [splitLast, splitFirst_of_not_mem this]

theorem reverse_append_cons_cons (x : List Char) (a b : Char) (y : List Char) :
    (x ++ a :: b :: y).reverse = y.reverse ++ b :: a :: x.reverse := by
  simp

theorem splitLast_append {sep : Char} (x : List Char) {y : List Char} (h : sep ∉ y) :
    splitLast sep (x ++ sep :: y) = some (x, y) := by
  have hrev : (x ++ sep :: y).reverse = y.reverse ++ sep :: x.reverse := by simp
  have hy : sep ∉ y.reverse := fun m => h (List.mem_reverse.mp m)
  simp [splitLast, hrev, splitFirst_append _ hy]

theorem isPrefixOf_dd_iff {l : List Char} :
    dd.isPrefixOf l = true ↔ ∃ q, l = '-' :: '-' :: q := by
  match l with
  | [] => simp [dd, List.isPrefixOf]
  | [c] => simp [dd, List.isPrefixOf]
  | c :: c2 :: t =>
    simp only [dd, List.isPrefixOf, Bool.and_eq_true, beq_iff_eq, Bool.and_true, and_true]
    constructor
    · rintro ⟨h1, h2⟩
      exact ⟨t, by rw [← h1, ← h2]⟩
    · rintro ⟨q, hq⟩
      injection hq with e1 rest
      injection rest with e2 _
      exact ⟨e1.symm, e2.symm⟩

theorem listContainsSub_dd_iff : ∀ {l : List Char},
    listContainsSub dd l = true ↔ ∃ p q, l = p ++ '-' :: '-' :: q
  | [] => by
    constructor
    · intro h; simp [listContainsSub, dd] at h
    · rintro ⟨p, q, hpq⟩
      cases p <;> simp_all
  | c :: cs => by
    simp only [listContainsSub, Bool.or_eq_true, isPrefixOf_dd_iff,
      @listContainsSub_dd_iff cs]
    constructor
    · rintro (⟨q, hq⟩ | ⟨p, q, hpq⟩)
      · exact ⟨[], q, hq⟩
      · exact ⟨c :: p, q, by rw [List.cons_append, hpq]⟩
    · rintro ⟨p, q, hpq⟩
      cases p with
      | nil => exact Or.inl ⟨q, hpq⟩
      | cons a p2 =>
        rw [List.cons_append] at hpq
        injection hpq with _ h2
        exact Or.inr ⟨p2, q, h2⟩

theorem not_containsSub_dd_reverse {l : List Char}
    (h : listContainsSub dd l = false) : listContainsSub dd l.reverse = false := by
  by_contra hne
  have htrue : listContainsSub dd l.reverse = true := by
    cases hcase : listContainsSub dd l.reverse
    · exact absurd hcase hne
    · rfl
  obtain ⟨p, q, hpq⟩ := listContainsSub_dd_iff.mp htrue
  have hl : l = q.reverse ++ '-' :: '-' :: p.reverse := by
    have := congrArg List.reverse hpq
    simpa using this
  have : listContainsSub dd l = true := listContainsSub_dd_iff.mpr ⟨q.reverse, p.reverse, hl⟩
  rw [h] at this
  cases this

theorem splitSub_dd_append : ∀ {x : List Char} (y : List Char),
    listContainsSub dd x = false → x.getLast? ≠ some '-' →
    splitSub dd (x ++ '-' :: '-' :: y) = some (x, y)
  | [], y, _, _ => by simp [splitSub, dd, List.isPrefixOf]
  | a :: t, y, hc, hl => by
    have hc2 : listContainsSub dd t = false := by
      have := hc
      simp only [listContainsSub, Bool.or_eq_false_iff] at this
      exact this.2
    have hnopfx : dd.isPrefixOf (a :: (t ++ '-' :: '-' :: y)) = false := by
      cases hcase : dd.isPrefixOf (a :: (t ++ '-' :: '-' :: y))
      · rfl
      · exfalso
        obtain ⟨q, hq⟩ := isPrefixOf_dd_iff.mp hcase
        injection hq with ha hrest
        match t, hrest with
        | [], hrest => exact hl (by simp [ha])
        | b :: t2, hrest =>
          injection hrest with hb _
          have : dd.isPrefixOf (a :: b :: t2) = true :=
            isPrefixOf_dd_iff.mpr ⟨t2, by rw [ha, hb]⟩
          simp only [listContainsSub, this, Bool.true_or] at hc
          cases hc
    have hl2 : t.getLast? ≠ some '-' := by
      match t with
      | [] => simp
      | b :: t2 => rw [List.getLast?_cons_cons] at hl; exact hl
    have ih := splitSub_dd_append y hc2 hl2
    have hcond : ¬(dd.isPrefixOf (a :: (t ++ '-' :: '-' :: y)) = true) := by
      rw [hnopfx]; exact Bool.false_ne_true
    simp only [List.cons_append, splitSub, List.append_eq]
    rw [if_neg hcond, ih]

theorem rsplitSub_dd_append (v : List Char) {b : List Char}
    (hc : listContainsSub dd b = false) (hh : b.head? ≠ some '-') :
    rsplitSub dd (v ++ '-' :: '-' :: b) = some (v, b) := by
  have hddrev : dd.reverse = dd := rfl
  have hrev : (v ++ '-' :: '-' :: b).reverse = b.reverse ++ '-' :: '-' :: v.reverse := by
    simp
  have hcr : listContainsSub dd b.reverse = false := not_containsSub_dd_reverse hc
  have hlr : b.reverse.getLast? ≠ some '-' := by
    rw [List.getLast?_reverse]; exact hh
  simp [rsplitSub, hddrev, hrev, splitSub_dd_append _ hcr hlr]

/-! ## Lemmas about identifier normalization -/

theorem rsplitColon_no_colon {s : String} (h : ':' ∉ s.data) :
    rsplitColon s = (s, none) := by
  simp [rsplitColon, splitLast_of_not_mem h]

theorem rsplitColon_append (s : String) {t : String} (h : ':' ∉ t.data) :
    rsplitColon (s ++ ":" ++ t) = (s, some t) := by
  have hdata : (s ++ ":" ++ t).data = s.data ++ ':' :: t.data := by
    simp [String.data_append]
  simp [rsplitColon, hdata, splitLast_append s.data h]

theorem normalize_append (s : String) {t : String} (h : ':' ∉ t.data)
    (h0 : t.data ≠ []) (h1 : t ≠ "latest") :
    normalize_identifier (s ++ ":" ++ t) = (s, some t) := by
  have hne : ¬(t.data.isEmpty = true ∨ t = "latest") := by
    rintro (he | he)
    · exact h0 (List.isEmpty_iff.mp he)
    · exact h1 he
  simp only [normalize_identifier, rsplitColon_append s h]
  rw [if_neg hne]

theorem normalize_no_colon {s : String} (h : ':' ∉ s.data) :
    normalize_identifier s = (s, none) := by
  simp [normalize_identifier, rsplitColon_no_colon h]

/-- The classification of an image name matching neither multi-target
mulled prefix: always the single-package record, with a truthy registry
prefix stripped from the name and the tag split on `--`. -/
theorem classify_identifier_single {image_name : String} (version : Option String)
    (identifier hash_func : String) (ns : Option String)
    (h1 : strStartsWith image_name (ns_pfx ns ++ "mulled-v1-") = false)
    (h2 : strStartsWith image_name (ns_pfx ns ++ "mulled-v2-") = false) :
    classify_identifier image_name version identifier hash_func ns =
      Except.ok (some (CachedImage.single (strip_ns_pfx (ns_pfx ns) image_name)
        (tag_split version).1 (tag_split version).2 identifier)) := by
  simp only [classify_identifier]
  rw [if_neg (by rw [h1]; exact Bool.false_ne_true),
    if_neg (by rw [h2]; exact Bool.false_ne_true)]

/-! ## The matcher scans as first-match searches -/

/-- The single-target match condition: a single-type image (`multi_target`
false) whose package name equals the target's and whose version equals the
target's version when the target has one. -/
def single_target_matches (target : Target) (ci : CachedImage) : Bool :=
  ci.multi_target == none && ci.package_nameOf == some target.package_name &&
    (!pyTruthy target.version || target.version == ci.versionOf)

theorem single_target_matches_true {target : Target} {pn : String}
    {v b : Option String} {id : String} (hpn : pn = target.package_name)
    (hv : pyTruthy target.version = false ∨ target.version = v) :
    single_target_matches target (CachedImage.single pn v b id) = true := by
  simp only [single_target_matches, CachedImage.multi_target, CachedImage.package_nameOf,
    CachedImage.versionOf, Bool.and_eq_true, Bool.or_eq_true, beq_iff_eq,
    Bool.not_eq_true', Option.some.injEq]
  exact ⟨⟨trivial, hpn⟩, hv⟩

theorem scan_single_eq_find (target : Target) :
    ∀ l : List CachedImage, scan_single target l = l.find? (single_target_matches target)
  | [] => rfl
  | ci :: rest => by
    have ih := scan_single_eq_find target rest
    cases ci with
    | single pn v b id =>
      by_cases hpn : pn = target.package_name
      · by_cases hv : pyTruthy target.version = false ∨ target.version = v
        · rw [List.find?_cons_of_pos _ (single_target_matches_true hpn hv)]
          simp only [scan_single]
          rw [if_neg (not_not_intro hpn), if_pos hv]
        · have hfalse : single_target_matches target (CachedImage.single pn v b id) = false := by
            simp only [single_target_matches, CachedImage.multi_target,
              CachedImage.package_nameOf, CachedImage.versionOf]
            simp only [Bool.and_eq_false_iff, Bool.or_eq_false_iff, beq_eq_false_iff_ne,
              Bool.not_eq_false']
            push_neg at hv
            exact Or.inr ⟨by simpa using hv.1, by simpa using hv.2⟩
          rw [List.find?_cons_of_neg _ (by rw [hfalse]; exact Bool.false_ne_true)]
          simp only [scan_single]
          rw [if_neg (not_not_intro hpn), if_neg hv, ih]
      · have hfalse : single_target_matches target (CachedImage.single pn v b id) = false := by
          simp only [single_target_matches, CachedImage.multi_target,
            CachedImage.package_nameOf, CachedImage.versionOf]
          simp only [Bool.and_eq_false_iff, Bool.or_eq_false_iff, beq_eq_false_iff_ne]
          exact Or.inl (Or.inr (by simpa using hpn))
        rw [List.find?_cons_of_neg _ (by rw [hfalse]; exact Bool.false_ne_true)]
        simp only [scan_single]
        rw [if_pos hpn, ih]
    | v1 h b id =>
      have hfalse : single_target_matches target (CachedImage.v1 h b id) = false := rfl
      rw [List.find?_cons_of_neg _ (by rw [hfalse]; exact Bool.false_ne_true)]
      simp only [scan_single]
      exact ih
    | v2 n vh b id =>
      have hfalse : single_target_matches target (CachedImage.v2 n vh b id) = false := rfl
      rw [List.find?_cons_of_neg _ (by rw [hfalse]; exact Bool.false_ne_true)]
      simp only [scan_single]
      exact ih

/-- The multi-target v2 match condition: a v2-type image whose
`package_hash` equals the computed package hash and, when a version hash was
computed, whose `version_hash` equals it. -/
def v2_target_matches (package_hash : String) (version_hash : Option String)
    (ci : CachedImage) : Bool :=
  ci.multi_target == some "v2" &&
    (match version_hash with
     | none => ci.package_hash == some package_hash
     | some q => ci.package_hash == some package_hash && ci.version_hashOf == some q)

theorem scan_v2_eq_find (package_hash : String) (version_hash : Option String) :
    ∀ l : List CachedImage,
      scan_v2 package_hash version_hash l = l.find? (v2_target_matches package_hash version_hash)
  | [] => rfl
  | ci :: rest => by
    have ih := scan_v2_eq_find package_hash version_hash rest
    cases ci with
    | single pn v b id =>
      have hfalse : v2_target_matches package_hash version_hash
          (CachedImage.single pn v b id) = false := by
        simp [v2_target_matches, CachedImage.multi_target]
      rw [List.find?_cons_of_neg _ (by rw [hfalse]; exact Bool.false_ne_true)]
      simp only [scan_v2]
      exact ih
    | v1 h b id =>
      have hfalse : v2_target_matches package_hash version_hash
          (CachedImage.v1 h b id) = false := by
        simp [v2_target_matches, CachedImage.multi_target]
      rw [List.find?_cons_of_neg _ (by rw [hfalse]; exact Bool.false_ne_true)]
      simp only [scan_v2]
      exact ih
    | v2 n vh b id =>
      cases version_hash with
      | none =>
        by_cases hph : package_hash = image_name_package_hash n
        · have htrue : v2_target_matches package_hash none (CachedImage.v2 n vh b id) = true := by
            simp [v2_target_matches, CachedImage.multi_target, CachedImage.package_hash, hph]
          rw [List.find?_cons_of_pos _ htrue]
          simp only [scan_v2]
          rw [if_pos hph]
        · have hfalse : v2_target_matches package_hash none (CachedImage.v2 n vh b id) = false := by
            simp only [v2_target_matches, CachedImage.multi_target, CachedImage.package_hash]
            simp only [Bool.and_eq_false_iff, beq_eq_false_iff_ne, ne_eq, Option.some.injEq]
            exact Or.inr (fun e => hph e.symm)
          rw [List.find?_cons_of_neg _ (by rw [hfalse]; exact Bool.false_ne_true)]
          simp only [scan_v2]
          rw [if_neg hph, ih]
      | some q =>
        by_cases hm : package_hash = image_name_package_hash n ∧ vh = some q
        · have htrue : v2_target_matches package_hash (some q)
              (CachedImage.v2 n vh b id) = true := by
            simp [v2_target_matches, CachedImage.multi_target, CachedImage.package_hash,
              CachedImage.version_hashOf, hm.1, hm.2]
          rw [List.find?_cons_of_pos _ htrue]
          simp only [scan_v2]
          rw [if_pos hm]
        · have hfalse : v2_target_matches package_hash (some q)
              (CachedImage.v2 n vh b id) = false := by
            simp only [v2_target_matches, CachedImage.multi_target, CachedImage.package_hash,
              CachedImage.version_hashOf]
            simp only [Bool.and_eq_false_iff, beq_eq_false_iff_ne, ne_eq, Option.some.injEq]
            rcases Decidable.not_and_iff_or_not.mp hm with h1 | h2
            · exact Or.inr (Or.inl (fun e => h1 e.symm))
            · exact Or.inr (Or.inr h2)
          rw [List.find?_cons_of_neg _ (by rw [hfalse]; exact Bool.false_ne_true)]
          simp only [scan_v2]
          rw [if_neg hm, ih]

/-- The multi-target v1 match condition: a v1-type image whose `hash` equals
the computed v1 name. -/
def v1_target_matches (name : String) (ci : CachedImage) : Bool :=
  ci.multi_target == some "v1" && ci.hashOf == some name

theorem scan_v1_eq_find (name : String) :
    ∀ l : List CachedImage, scan_v1 name l = l.find? (v1_target_matches name)
  | [] => rfl
  | ci :: rest => by
    have ih := scan_v1_eq_find name rest
    cases ci with
    | single pn v b id =>
      have hfalse : v1_target_matches name (CachedImage.single pn v b id) = false := by
        simp [v1_target_matches, CachedImage.multi_target]
      rw [List.find?_cons_of_neg _ (by rw [hfalse]; exact Bool.false_ne_true)]
      simp only [scan_v1]
      exact ih
    | v2 n vh b id =>
      have hfalse : v1_target_matches name (CachedImage.v2 n vh b id) = false := by
        simp [v1_target_matches, CachedImage.multi_target]
      rw [List.find?_cons_of_neg _ (by rw [hfalse]; exact Bool.false_ne_true)]
      simp only [scan_v1]
      exact ih
    | v1 h b id =>
      by_cases hh : name = h
      · have htrue : v1_target_matches name (CachedImage.v1 h b id) = true := by
          simp [v1_target_matches, CachedImage.multi_target, CachedImage.hashOf, hh]
        rw [List.find?_cons_of_pos _ htrue]
        simp only [scan_v1]
        rw [if_pos hh]
      · have hfalse : v1_target_matches name (CachedImage.v1 h b id) = false := by
          simp only [v1_target_matches, CachedImage.multi_target, CachedImage.hashOf]
          simp only [Bool.and_eq_false_iff, beq_eq_false_iff_ne, ne_eq, Option.some.injEq]
          exact Or.inr (fun e => hh e.symm)
        rw [List.find?_cons_of_neg _ (by rw [hfalse]; exact Bool.false_ne_true)]
        simp only [scan_v1]
        rw [if_neg hh, ih]

theorem scan_single_kind {target : Target} {l : List CachedImage} {img : CachedImage}
    (h : scan_single target l = some img) : img.multi_target = none := by
  rw [scan_single_eq_find] at h
  have hp := List.find?_some h
  simp only [single_target_matches, Bool.and_eq_true, beq_iff_eq] at hp
  exact hp.1.1

theorem scan_v2_kind {package_hash : String} {version_hash : Option String}
    {l : List CachedImage} {img : CachedImage}
    (h : scan_v2 package_hash version_hash l = some img) : img.multi_target = some "v2" := by
  rw [scan_v2_eq_find] at h
  have hp := List.find?_some h
  simp only [v2_target_matches, Bool.and_eq_true, beq_iff_eq] at hp
  exact hp.1

theorem scan_v1_kind {name : String} {l : List CachedImage} {img : CachedImage}
    (h : scan_v1 name l = some img) : img.multi_target = some "v1" := by
  rw [scan_v1_eq_find] at h
  have hp := List.find?_some h
  simp only [v1_target_matches, Bool.and_eq_true, beq_iff_eq] at hp
  exact hp.1

/-! ## Claim theorems -/

/-- Claim C1: for every single target (a list of exactly one target), every
cached-image list and every hash function, `find_best_matching_cached_image`
returns the first cached image in list order whose `multi_target`
discriminator is false, whose `package_name` equals the target's, and whose
version equals the target's version unless the target has none; `none` when
no image matches. -/
theorem find_best_single_eq_first_match (target : Target)
    (cached_images : List CachedImage) (hash_func : String) :
    find_best_matching_cached_image [target] cached_images hash_func =
      cached_images.find? (single_target_matches target) :=
  scan_single_eq_find target cached_images

/-- Claim C2: for every list of two or more targets under hash function v2,
`find_best_matching_cached_image` computes the v2 name of the targets,
splits it into a package hash and an optional version hash, and returns the
first cached image of v2 type whose `package_hash` equals the computed
package hash and — when a version hash was computed — whose `version_hash`
equals it; with no computed version hash the match is on package hash
alone. -/
theorem find_best_v2_eq_first_match (t1 t2 : Target) (ts : List Target)
    (cached_images : List CachedImage) :
    find_best_matching_cached_image (t1 :: t2 :: ts) cached_images "v2" =
      cached_images.find?
        (v2_target_matches (splitColonOnce (v2_image_name (t1 :: t2 :: ts))).1
          (splitColonOnce (v2_image_name (t1 :: t2 :: ts))).2) := by
  simp only [find_best_matching_cached_image, if_true]
  exact scan_v2_eq_find _ _ cached_images

/-- Claim C7: for every target list and every hash function, matching
against an empty cached-image list yields no match. -/
theorem find_best_empty_cache (targets : List Target) (hash_func : String) :
    find_best_matching_cached_image targets [] hash_func = none := by
  match targets with
  | [] => rfl
  | [t] => rfl
  | t1 :: t2 :: ts =>
    simp only [find_best_matching_cached_image]
    by_cases h2 : hash_func = "v2"
    · rw [if_pos h2]; rfl
    · rw [if_neg h2]
      by_cases h1 : hash_func = "v1"
      · rw [if_pos h1]; rfl
      · rw [if_neg h1]

/-- Claim C10: whenever `find_best_matching_cached_image` returns an image,
its kind matches the query: single-type for one target, v2 type for more
targets under hash function v2, v1 type for more targets under v1. -/
theorem find_best_kind (targets : List Target) (cached_images : List CachedImage)
    (hash_func : String) (img : CachedImage)
    (h : find_best_matching_cached_image targets cached_images hash_func = some img) :
    (targets.length = 1 → img.multi_target = none) ∧
    (2 ≤ targets.length → hash_func = "v2" → img.multi_target = some "v2") ∧
    (2 ≤ targets.length → hash_func = "v1" → img.multi_target = some "v1") := by
  match targets with
  | [] => cases h
  | [t] =>
    have hlen : ([t] : List Target).length = 1 := rfl
    refine ⟨fun _ => scan_single_kind h, fun h2 _ => ?_, fun h2 _ => ?_⟩
    · rw [hlen] at h2; omega
    · rw [hlen] at h2; omega
  | t1 :: t2 :: ts =>
    refine ⟨fun hlen => ?_, fun _ hv2 => ?_, fun _ hv1 => ?_⟩
    · exfalso
      have : (t1 :: t2 :: ts).length = ts.length + 2 := by simp
      omega
    · subst hv2
      simp only [find_best_matching_cached_image, if_pos rfl] at h
      exact scan_v2_kind h
    · subst hv1
      simp only [find_best_matching_cached_image, if_true] at h
      exact scan_v1_kind h

/-- Witness for C10 at a concrete query: one target, one matching
single-type cached image. -/
theorem find_best_kind_witness :
    find_best_matching_cached_image [⟨"p", none, none⟩]
      [CachedImage.single "p" none none "p"] "v2" =
        some (CachedImage.single "p" none none "p") ∧
    (CachedImage.single "p" none none "p").multi_target = none :=
  ⟨rfl, (find_best_kind [⟨"p", none, none⟩] [CachedImage.single "p" none none "p"]
    "v2" (CachedImage.single "p" none none "p") rfl).1 rfl⟩

/-- Claim C3 (code bug): on a `mulled-v2-` image identifier carrying no
version — no tag, an empty tag, or the tag `latest` — with hash function v2,
`identifier_to_cached_target` raises `AttributeError` (line 123 evaluates
`version.isdigit()` with `version` equal to `None`) instead of returning no
record; the `mulled-v1-` branch guards the same test with
`version and version.isdigit()`. -/
theorem identifier_to_cached_target_versionless_v2_raises :
    identifier_to_cached_target "mulled-v2-abc" "v2" none = Except.error () ∧
    identifier_to_cached_target "mulled-v2-abc:latest" "v2" none = Except.error () ∧
    identifier_to_cached_target "mulled-v2-abc:" "v2" none = Except.error () :=
  ⟨rfl, rfl, rfl⟩

/-- Claim C4 counterexample: with namespace `foo`, the identifier
`quay.io/foo/mulled-v1-abc:3` has an image-name part starting with neither
`mulled-v1-` nor `mulled-v2-`, yet it is classified as a v1 multi-target
record — not a single-package record. -/
theorem namespaced_mulled_identifier_not_single :
    strStartsWith "quay.io/foo/mulled-v1-abc" "mulled-v1-" = false ∧
    strStartsWith "quay.io/foo/mulled-v1-abc" "mulled-v2-" = false ∧
    identifier_to_cached_target "quay.io/foo/mulled-v1-abc:3" "v1" (some "foo") =
      Except.ok (some (CachedImage.v1 "quay.io/foo/mulled-v1-abc" (some "3")
        "quay.io/foo/mulled-v1-abc:3")) ∧
    (CachedImage.v1 "quay.io/foo/mulled-v1-abc" (some "3")
      "quay.io/foo/mulled-v1-abc:3").multi_target ≠ none :=
  ⟨rfl, rfl, rfl, fun h => Option.noConfusion h⟩

/-- Claim C4 (amended): for every identifier whose image-name part starts
with neither `<prefix>mulled-v1-` nor `<prefix>mulled-v2-` — where
`<prefix>` is `quay.io/<namespace>/` when a namespace is given and empty
otherwise — and for every hash function, `identifier_to_cached_target`
yields a single-package record, its tag split on `--` into version and
build when `--` is present. -/
theorem identifier_to_cached_target_single (identifier hash_func : String)
    (ns : Option String)
    (h1 : strStartsWith (normalize_identifier identifier).1
      (ns_pfx ns ++ "mulled-v1-") = false)
    (h2 : strStartsWith (normalize_identifier identifier).1
      (ns_pfx ns ++ "mulled-v2-") = false) :
    ∃ pn, identifier_to_cached_target identifier hash_func ns =
      Except.ok (some (CachedImage.single pn
        (tag_split (normalize_identifier identifier).2).1
        (tag_split (normalize_identifier identifier).2).2 identifier)) :=
  ⟨strip_ns_pfx (ns_pfx ns) (normalize_identifier identifier).1,
    classify_identifier_single _ identifier hash_func ns h1 h2⟩

/-- Witness for the amended C4 at the concrete identifier `foo:1.2--0`. -/
theorem identifier_to_cached_target_single_witness :
    strStartsWith (normalize_identifier "foo:1.2--0").1 (ns_pfx none ++ "mulled-v1-") = false ∧
    strStartsWith (normalize_identifier "foo:1.2--0").1 (ns_pfx none ++ "mulled-v2-") = false ∧
    ∃ pn, identifier_to_cached_target "foo:1.2--0" "v2" none =
      Except.ok (some (CachedImage.single pn
        (tag_split (normalize_identifier "foo:1.2--0").2).1
        (tag_split (normalize_identifier "foo:1.2--0").2).2 "foo:1.2--0")) :=
  ⟨rfl, rfl, identifier_to_cached_target_single "foo:1.2--0" "v2" none rfl rfl⟩

/-- Claim C9: for every image name (the identifier part before any tag), a
missing tag, an empty tag and the tag `latest` are all normalized to no
version before classification. -/
theorem normalize_identifier_latest_eq_missing (name : String) (h : ':' ∉ name.data) :
    normalize_identifier name = (name, none) ∧
    normalize_identifier (name ++ ":latest") = (name, none) ∧
    normalize_identifier (name ++ ":") = (name, none) := by
  refine ⟨normalize_no_colon h, ?_, ?_⟩
  · have e : name ++ ":latest" = name ++ ":" ++ "latest" := by
      rw [String.append_assoc]; rfl
    rw [e]
    have hr := rsplitColon_append name (t := "latest") (by decide)
    simp [normalize_identifier, hr]
  · have hr := rsplitColon_append name (t := "") (by decide)
    have e : name ++ ":" = name ++ ":" ++ "" := by
      rw [String.append_assoc]; rfl
    have hr2 : rsplitColon (name ++ ":") = (name, some "") := by rw [e]; exact hr
    simp [normalize_identifier, hr2]

/-- Witness for C9 at the concrete image name `foo`. -/
theorem normalize_identifier_latest_eq_missing_witness :
    normalize_identifier "foo" = ("foo", none) ∧
    normalize_identifier ("foo" ++ ":latest") = ("foo", none) ∧
    normalize_identifier ("foo" ++ ":") = ("foo", none) :=
  normalize_identifier_latest_eq_missing "foo" (by decide)

/-- Claim C8: when the external image-listing command fails (nonzero exit),
`list_docker_cached_mulled_images` returns the empty list instead of
propagating the error, and `docker_cached_container_description`
consequently resolves no container. -/
theorem docker_failure_no_container (targets : List Target) (ns : Option String)
    (hash_func shell : String) :
    list_docker_cached_mulled_images (Except.error ()) ns hash_func = Except.ok [] ∧
    docker_cached_container_description (Except.error ()) targets ns hash_func shell =
      Except.ok none := by
  refine ⟨rfl, ?_⟩
  by_cases h0 : targets.length = 0
  · simp [docker_cached_container_description, h0]
  · simp only [docker_cached_container_description, if_neg h0]
    show Except.ok (Option.map
      (fun i => ({ identifier := i.image_identifier, type := "docker", shell := shell } :
        ContainerDescription))
      (find_best_matching_cached_image targets [] hash_func)) = Except.ok none
    rw [find_best_empty_cache]
    rfl

/-! ## C5: single-target round trip -/

/-- Constraints on an optional build under which the encoded name parses
back exactly: a truthy build contains no `:`, no `--`, and does not start
with `-`. -/
def buildOk : Option String → Prop
  | none => True
  | some bld => ':' ∉ bld.data ∧ listContainsSub dd bld.data = false ∧
      bld.data.head? ≠ some '-'

instance buildOk.instDecidable : DecidablePred buildOk := fun b =>
  match b with
  | none => Decidable.isTrue trivial
  | some bld => inferInstanceAs (Decidable (':' ∉ bld.data ∧
      listContainsSub dd bld.data = false ∧ bld.data.head? ≠ some '-'))

theorem tag_split_no_dd {v : String} (hv0 : v.data ≠ [])
    (hv3 : listContainsSub dd v.data = false) :
    tag_split (some v) = (some v, none) := by
  have : (pyTruthy (some v) && listContainsSub dd v.data) = false := by
    rw [hv3, Bool.and_false]
  simp only [tag_split]
  rw [if_neg (by rw [this]; exact Bool.false_ne_true)]

theorem data_append_dd (v bld : String) :
    (v ++ "--" ++ bld).data = v.data ++ '-' :: '-' :: bld.data := by
  rw [String.data_append, String.data_append]
  have hdd : ("--" : String).data = ['-', '-'] := rfl
  rw [hdd, List.append_assoc]
  rfl

theorem tag_split_with_dd (v : String) {bld : String}
    (hb1 : listContainsSub dd bld.data = false) (hb2 : bld.data.head? ≠ some '-') :
    tag_split (some (v ++ "--" ++ bld)) = (some v, some bld) := by
  have hdata := data_append_dd v bld
  have hcontains : listContainsSub dd (v ++ "--" ++ bld).data = true := by
    rw [hdata]
    exact listContainsSub_dd_iff.mpr ⟨v.data, bld.data, rfl⟩
  have hne : (v ++ "--" ++ bld).data ≠ [] := by
    rw [hdata]
    intro e
    cases v.data <;> simp_all
  have hcond : (pyTruthy (some (v ++ "--" ++ bld)) &&
      listContainsSub dd (v ++ "--" ++ bld).data) = true := by
    rw [hcontains, Bool.and_true]
    simp only [pyTruthy, Bool.not_eq_true']
    rw [← Bool.not_eq_true, List.isEmpty_iff]
    exact hne
  have hsplit : rsplitSub dd (v ++ "--" ++ bld).data = some (v.data, bld.data) := by
    rw [hdata]
    exact rsplitSub_dd_append v.data hb1 hb2
  simp only [tag_split]
  rw [if_pos hcond, hsplit]

/-- Claim C5 counterexample: for the single target with package `a` and the
known version `latest`, encoding then parsing yields a record with no
version, not the original version. -/
theorem single_target_round_trip_latest_fails :
    single_target_name "a" "latest" none = "a:latest" ∧
    identifier_to_cached_target (single_target_name "a" "latest" none) "v2" none =
      Except.ok (some (CachedImage.single "a" none none "a:latest")) ∧
    (none : Option String) ≠ some "latest" :=
  ⟨rfl, rfl, fun h => Option.noConfusion h⟩

/-- Claim C5 (amended): for a single target whose package name does not
start with `mulled-v1-` or `mulled-v2-` and whose known version is nonempty,
is not `latest`, and contains neither `:` nor `--`, and whose optional build
contains no `:` or `--` and does not start with `-`, encoding the target as
`<package>:<version>[--<build>]` and parsing the result with the cache
scanner (any hash function, no namespace) yields the single-package record
with the same package name, version and truthy build. -/
theorem single_target_round_trip (pkg v : String) (b : Option String)
    (hash_func : String)
    (hv0 : v.data ≠ []) (hv1 : v ≠ "latest") (hv2 : ':' ∉ v.data)
    (hv3 : listContainsSub dd v.data = false) (hb : buildOk b)
    (hp1 : strStartsWith pkg "mulled-v1-" = false)
    (hp2 : strStartsWith pkg "mulled-v2-" = false) :
    identifier_to_cached_target (single_target_name pkg v b) hash_func none =
      Except.ok (some (CachedImage.single pkg (some v)
        (if pyTruthy b then b else none) (single_target_name pkg v b))) := by
  by_cases hbt : pyTruthy b = true
  · -- truthy build: the tag is `<version>--<build>`
    obtain ⟨bld, rfl⟩ : ∃ bld, b = some bld := by
      cases b with
      | none => exact absurd hbt (by simp [pyTruthy])
      | some bld => exact ⟨bld, rfl⟩
    obtain ⟨hb1, hb2, hb3⟩ := hb
    have hname : single_target_name pkg v (some bld) = pkg ++ ":" ++ (v ++ "--" ++ bld) := by
      simp only [single_target_name]
      rw [if_pos hbt]
      simp only [Option.getD_some]
      rw [String.append_assoc (pkg ++ ":" ++ v), String.append_assoc (pkg ++ ":"),
        ← String.append_assoc v]
    have htagdata := data_append_dd v bld
    have htagcolon : ':' ∉ (v ++ "--" ++ bld).data := by
      rw [htagdata]
      intro hmem
      rcases List.mem_append.mp hmem with hmem1 | hmem2
      · exact hv2 hmem1
      · rcases hmem2 with _ | ⟨_, hmem3⟩
        · rcases hmem3 with _ | ⟨_, hmem4⟩
          · exact hb1 hmem4
    have htagne : (v ++ "--" ++ bld).data ≠ [] := by
      rw [htagdata]
      intro e
      cases v.data <;> simp_all
    have htaglatest : (v ++ "--" ++ bld) ≠ "latest" := by
      intro e
      have h1 : listContainsSub dd (v ++ "--" ++ bld).data = true := by
        rw [htagdata]
        exact listContainsSub_dd_iff.mpr ⟨v.data, bld.data, rfl⟩
      rw [e] at h1
      have h2 : listContainsSub dd ("latest" : String).data = false := by decide
      rw [h2] at h1
      cases h1
    have hnorm := normalize_append pkg htagcolon htagne htaglatest
    rw [hname]
    show classify_identifier (normalize_identifier (pkg ++ ":" ++ (v ++ "--" ++ bld))).1
      (normalize_identifier (pkg ++ ":" ++ (v ++ "--" ++ bld))).2
      (pkg ++ ":" ++ (v ++ "--" ++ bld)) hash_func none = _
    rw [hnorm]
    rw [classify_identifier_single (some (v ++ "--" ++ bld)) _ hash_func none hp1 hp2]
    rw [tag_split_with_dd v hb2 hb3]
    rw [if_pos hbt]
    rfl
  · -- falsy build: the tag is just the version
    have hbt2 : pyTruthy b = false := by
      cases hcase : pyTruthy b
      · rfl
      · exact absurd hcase hbt
    have hname : single_target_name pkg v b = pkg ++ ":" ++ v := by
      simp only [single_target_name]
      rw [if_neg (by rw [hbt2]; exact Bool.false_ne_true)]
    have hnorm := normalize_append pkg hv2 hv0 hv1
    rw [hname]
    show classify_identifier (normalize_identifier (pkg ++ ":" ++ v)).1
      (normalize_identifier (pkg ++ ":" ++ v)).2 (pkg ++ ":" ++ v) hash_func none = _
    rw [hnorm]
    rw [classify_identifier_single (some v) _ hash_func none hp1 hp2]
    rw [tag_split_no_dd hv0 hv3]
    rw [if_neg (by rw [hbt2]; exact Bool.false_ne_true)]
    rfl

/-- Witness for the amended C5 at the concrete target
`samtools` / `1.9` / build `h1234_0`. -/
theorem single_target_round_trip_witness :
    ("1.9" : String).data ≠ [] ∧ ("1.9" : String) ≠ "latest" ∧
    ':' ∉ ("1.9" : String).data ∧ listContainsSub dd ("1.9" : String).data = false ∧
    buildOk (some "h1234_0") ∧
    strStartsWith "samtools" "mulled-v1-" = false ∧
    strStartsWith "samtools" "mulled-v2-" = false ∧
    identifier_to_cached_target (single_target_name "samtools" "1.9" (some "h1234_0"))
      "v2" none = Except.ok (some (CachedImage.single "samtools" (some "1.9")
        (if pyTruthy (some "h1234_0") then some "h1234_0" else none)
        (single_target_name "samtools" "1.9" (some "h1234_0")))) :=
  ⟨by decide, by decide, by decide, by decide, by decide, by decide, by decide,
    single_target_round_trip "samtools" "1.9" (some "h1234_0") "v2"
      (by decide) (by decide) (by decide) (by decide) (by decide) (by decide) (by decide)⟩

/-! ## C6: permutation invariance of the v2 package hash -/

theorem sorted_names_eq_of_perm {l l2 : List Target} (hperm : l.Perm l2) :
    (sortTargets l).map (fun t => t.package_name) =
      (sortTargets l2).map (fun t => t.package_name) := by
  haveI htot : IsTotal Target (fun a b => a.package_name ≤ b.package_name) :=
    ⟨fun a b => le_total a.package_name b.package_name⟩
  haveI htr : IsTrans Target (fun a b => a.package_name ≤ b.package_name) :=
    ⟨fun a b c hab hbc => le_trans hab hbc⟩
  haveI hanti : IsAntisymm String (fun a b : String => a ≤ b) :=
    ⟨fun a b hab hba => le_antisymm hab hba⟩
  have hperm2 : ((sortTargets l).map (fun t => t.package_name)).Perm
      ((sortTargets l2).map (fun t => t.package_name)) :=
    List.Perm.map _ ((List.perm_insertionSort _ l).trans
      (hperm.trans (List.perm_insertionSort _ l2).symm))
  have hs1 : List.Sorted (fun a b : String => a ≤ b)
      ((sortTargets l).map (fun t => t.package_name)) :=
    List.Pairwise.map _ (fun a b h => h) (List.sorted_insertionSort _ l)
  have hs2 : List.Sorted (fun a b : String => a ≤ b)
      ((sortTargets l2).map (fun t => t.package_name)) :=
    List.Pairwise.map _ (fun a b h => h) (List.sorted_insertionSort _ l2)
  exact List.eq_of_perm_of_sorted hperm2 hs1 hs2

/-- Claim C6: for every list of two or more targets with all versions known,
the v2 encoder's package hash is a deterministic function of the targets and
is invariant under permutation of the target list (package names are sorted
internally before hashing). -/
theorem v2_package_hash_perm_invariant (l l2 : List Target) (h2 : 2 ≤ l.length)
    (hall : ∀ t ∈ l, t.version.isSome = true) (hperm : l.Perm l2) :
    v2_package_hash l = v2_package_hash l2 := by
  unfold v2_package_hash
  rw [sorted_names_eq_of_perm hperm]

/-- Witness for C6 at a concrete two-target list and its transposition. -/
theorem v2_package_hash_perm_invariant_witness :
    2 ≤ ([⟨"b", some "2", none⟩, ⟨"a", some "1", none⟩] : List Target).length ∧
    (∀ t ∈ ([⟨"b", some "2", none⟩, ⟨"a", some "1", none⟩] : List Target),
      t.version.isSome = true) ∧
    v2_package_hash [⟨"b", some "2", none⟩, ⟨"a", some "1", none⟩] =
      v2_package_hash [⟨"a", some "1", none⟩, ⟨"b", some "2", none⟩] :=
  ⟨by decide, by decide,
    v2_package_hash_perm_invariant _ _ (by decide) (by decide)
      (List.Perm.swap _ _ _)⟩

end Mulled
